import Mathlib

/-!
Verification of the messaging core of the Lejeboligfind rental-marketplace
repository.

The development shallowly embeds the parts of the code the claims are about:

* the `messages` table of `shared/schema.ts` (columns `id`, `property_id`,
  `sender_id`, `receiver_id`, `content`, `is_read`, `sent_at`) as the
  structure `Message`; the timestamp is a `Nat`;
* the `users` and `properties` tables, reduced to the columns the embedded
  operations consult: user existence (a list of ids) and property
  id/ownership.  Display-only columns (names, e-mails, titles, addresses,
  prices) are carried by none of the verified computations and are omitted;
* the storage layer of `server/storage.ts` and of the extended storage
  variant embedded in `client/src/pages/chat.tsx`
  (`createMessage`, `markMessageAsRead`, `deleteProperty`,
  `getConversationMessages`, `getUserConversations`);
* the Express routes of `server/routes.ts` and of the `part_005` variant
  (`POST /api/messages` with and without the self-message guard,
  `GET /api/messages/:conversationId`).

SQL `ORDER BY x DESC` on rows held in insertion order is modelled as a
stable descending sort (`sortByDesc`), and the Postgres `serial` id column
as a `nextId` counter.  The drizzle/zod `insertMessageSchema` checks only
the shape of the payload (numbers and a string); the typed embedding
carries those checks statically, so a parse of a well-typed body always
succeeds, exactly as in the TypeScript code.  Foreign-key constraints of
the schema (`references(...)`) are modelled as an existence check inside
`createMessage`.
-/

/-- A row of the `messages` table (`shared/schema.ts`, lines 46-54). -/
structure Message where
  id : Nat
  propertyId : Nat
  senderId : Nat
  receiverId : Nat
  content : String
  read : Bool
  createdAt : Nat
deriving Repr, DecidableEq

/-- A row of the `properties` table, reduced to the two columns the
embedded operations use: `id` and `user_id` (ownership). -/
structure PropertyRow where
  id : Nat
  userId : Nat
deriving Repr, DecidableEq

/-- The database: user ids, property rows, message rows in insertion
order, and the state of the `serial` id sequence of `messages`. -/
structure DB where
  userIds : List Nat
  props : List PropertyRow
  messages : List Message
  nextId : Nat
deriving Repr, DecidableEq

/-- Payload of `POST /api/messages` after shape validation
(`insertMessageSchema` omits `id`, `createdAt` and `read`; `senderId` is
overwritten from the session before/after parsing in both route variants). -/
structure MessageBody where
  receiverId : Nat
  propertyId : Nat
  content : String
deriving Repr, DecidableEq

/-- The values inserted by `storage.createMessage`. -/
structure InsertMessage where
  propertyId : Nat
  senderId : Nat
  receiverId : Nat
  content : String
deriving Repr, DecidableEq

/-- Outcome of a message-creation request: `res.json(message)` or
`res.status(400).json(...)`. -/
inductive HttpResult where
  | ok (m : Message)
  | badRequest (msg : String)
deriving Repr, DecidableEq

/-- Stable insertion into a descending-by-key list: the new element goes
before the first element whose key is not larger.  Equal keys therefore
keep the earlier element first. -/
def insertByDesc (key : α → Nat) (x : α) : List α → List α
  | [] => [x]
  | y :: ys => if key x < key y then y :: insertByDesc key x ys else x :: y :: ys

/-- Stable descending sort, the list model of SQL `ORDER BY key DESC`
over rows scanned in insertion order. -/
def sortByDesc (key : α → Nat) : List α → List α
  | [] => []
  | x :: xs => insertByDesc key x (sortByDesc key xs)

/-- `storage.createMessage` (`server/storage.ts`, lines 171-177): insert the
row; `read` takes its column default `false`, `sent_at` the current time,
`id` the next serial value.  The `references(...)` foreign-key constraints
of `shared/schema.ts` make the insert fail when the sender, receiver or
property does not exist. -/
def createMessage (db : DB) (im : InsertMessage) (now : Nat) :
    Except String (DB × Message) :=
  if db.userIds.contains im.senderId && db.userIds.contains im.receiverId &&
      db.props.any (fun pr => pr.id == im.propertyId) then
    let msg : Message :=
      { id := db.nextId, propertyId := im.propertyId, senderId := im.senderId,
        receiverId := im.receiverId, content := im.content, read := false,
        createdAt := now }
    .ok ({ db with messages := db.messages ++ [msg], nextId := db.nextId + 1 }, msg)
  else
    .error "foreign key violation"

/-- The `POST /api/messages` handler of `server/routes.ts` (lines 311-324):
parse `{...req.body, senderId: req.session.userId}` with
`insertMessageSchema` (shape only — no further refinement), then persist.
There is no sender-equals-receiver check. -/
def sendMessageRoute (db : DB) (sessionUserId : Nat) (body : MessageBody)
    (now : Nat) : DB × HttpResult :=
  match createMessage db
      { propertyId := body.propertyId, senderId := sessionUserId,
        receiverId := body.receiverId, content := body.content } now with
  | .ok (db', m) => (db', .ok m)
  | .error _ => (db, .badRequest "Invalid message data")

/-- The `POST /api/messages` handler of the `part_005` route variant
(lines 372-407): shape-validate the body, add the session user as sender,
reject when `data.senderId === data.receiverId`, otherwise persist. -/
def sendMessageRouteGuarded (db : DB) (sessionUserId : Nat)
    (body : MessageBody) (now : Nat) : DB × HttpResult :=
  if sessionUserId == body.receiverId then
    (db, .badRequest "Cannot send message to yourself")
  else
    match createMessage db
        { propertyId := body.propertyId, senderId := sessionUserId,
          receiverId := body.receiverId, content := body.content } now with
    | .ok (db', m) => (db', .ok m)
    | .error _ => (db, .badRequest "Invalid message data")

/-- `storage.markMessageAsRead` (`server/storage.ts`, lines 239-249):
`UPDATE messages SET is_read = true WHERE id = messageId AND
receiver_id = userId`. -/
def markMessageAsRead (db : DB) (messageId userId : Nat) : DB :=
  { db with
    messages := db.messages.map fun m =>
      if m.id == messageId && m.receiverId == userId then
        { m with read := true }
      else m }

/-- `storage.deleteProperty` (`server/storage.ts`, lines 157-168): first
delete every message of the property, then delete the property row only
when it is owned by the caller; the returned flag is
`result.rowCount > 0` of the second delete. -/
def deleteProperty (db : DB) (id userId : Nat) : DB × Bool :=
  let remainingMessages := db.messages.filter fun m => !(m.propertyId == id)
  let deletedProps := db.props.countP fun pr => pr.id == id && pr.userId == userId
  let remainingProps := db.props.filter fun pr => !(pr.id == id && pr.userId == userId)
  ({ db with messages := remainingMessages, props := remainingProps }, deletedProps > 0)

/-- The `INNER JOIN`s of the conversation queries: a message row survives
the joins exactly when its sender, receiver and property rows exist. -/
def joinOk (db : DB) (m : Message) : Bool :=
  db.userIds.contains m.senderId && db.userIds.contains m.receiverId &&
    db.props.any (fun pr => pr.id == m.propertyId)

/-- The thread key of a message: `(propertyId, low participant, high
participant)` — the triple the code renders as the string
`propertyId-min-max` (decimal components make that rendering injective). -/
def msgKey (m : Message) : Nat × Nat × Nat :=
  (m.propertyId, min m.senderId m.receiverId, max m.senderId m.receiverId)

/-- `storage.getConversationMessages` of the `chat.tsx` storage variant
(lines 509-559): messages of the property exchanged between the two users
in either direction, excluding self-messages, joined against users and
properties, `ORDER BY sent_at DESC`, `LIMIT limit OFFSET (page-1)*limit`.
The drizzle defaults are `page = 1`, `limit = 50`. -/
def getConversationMessages (db : DB) (propertyId userId otherUserId : Nat)
    (page : Nat := 1) (limit : Nat := 50) : List Message :=
  let offset := (page - 1) * limit
  ((sortByDesc (fun m => m.createdAt)
      (db.messages.filter fun m =>
        joinOk db m &&
        m.propertyId == propertyId &&
        ((m.senderId == userId && m.receiverId == otherUserId) ||
          (m.senderId == otherUserId && m.receiverId == userId)) &&
        !(m.senderId == m.receiverId))).drop offset).take limit

/-- The `GET /api/messages/:conversationId` handler of the `part_005`
route variant (lines 443-472): the conversation id is the triple
`propertyId-userId1-userId2`; the other participant is `userId2` when
`userId1` is the caller, else `userId1`; the storage result (newest
first) is reversed so the oldest message comes first. -/
def conversationRoute (db : DB) (currentUserId : Nat)
    (conversationId : Nat × Nat × Nat) : List Message :=
  let propertyId := conversationId.1
  let userId1 := conversationId.2.1
  let userId2 := conversationId.2.2
  let otherUserId := if userId1 == currentUserId then userId2 else userId1
  (getConversationMessages db propertyId currentUserId otherUserId).reverse

/-- A conversation summary as built by `getUserConversations`.  The
display-only strings of the JS object (`otherUserName`, `propertyTitle`,
`propertyAddress`, copied verbatim from the joined rows) are omitted; the
JS `id` string `propertyId-min-max` is kept as the key triple. -/
structure Conversation where
  id : Nat × Nat × Nat
  propertyId : Nat
  otherUserId : Nat
  lastMessage : Message
  unreadCount : Nat
deriving Repr, DecidableEq

/-- First-match lookup in an association list — `Map.get`/`Map.has` of the
JS `conversationMap`. -/
def alookup [DecidableEq κ] (k : κ) : List (κ × α) → Option α
  | [] => none
  | e :: es => if e.1 = k then some e.2 else alookup k es

/-- Update the first entry with the given key — the in-place mutation of
the JS `conversationMap` entry. -/
def aupdate [DecidableEq κ] (k : κ) (f : α → α) : List (κ × α) → List (κ × α)
  | [] => []
  | e :: es => if e.1 = k then (e.1, f e.2) :: es else e :: aupdate k f es

/-- The two mutations `getUserConversations` applies to a conversation for
each of its messages: replace the last message when the new one is
strictly newer, and count the message as unread when the viewer receives
it and it is unread. -/
def updateConversation (userId : Nat) (c : Conversation) (m : Message) :
    Conversation :=
  let c1 := if c.lastMessage.createdAt < m.createdAt then { c with lastMessage := m } else c
  if m.receiverId == userId && !m.read then
    { c1 with unreadCount := c1.unreadCount + 1 }
  else c1

/-- The JS local `otherUserId`: the receiver when the viewer sent the
message, otherwise the sender. -/
def conversationOther (userId : Nat) (m : Message) : Nat :=
  if m.senderId == userId then m.receiverId else m.senderId

/-- The JS local `conversationKey`:
`propertyId-min(userId,otherUserId)-max(userId,otherUserId)`. -/
def conversationKey (userId : Nat) (m : Message) : Nat × Nat × Nat :=
  (m.propertyId, min userId (conversationOther userId m),
    max userId (conversationOther userId m))

/-- The object `conversationMap.set` installs for a fresh key. -/
def conversationInit (userId : Nat) (m : Message) : Conversation :=
  { id := conversationKey userId m, propertyId := m.propertyId,
    otherUserId := conversationOther userId m, lastMessage := m,
    unreadCount := 0 }

/-- One iteration of the `userMessages.forEach` of `getUserConversations`
(`chat.tsx` storage variant, lines 612-648): compute the other
participant, skip surviving self-messages, ensure the map entry exists
(initialised with the current message and `unreadCount: 0`), then apply
the two mutations. -/
def conversationStep (userId : Nat)
    (acc : List ((Nat × Nat × Nat) × Conversation)) (m : Message) :
    List ((Nat × Nat × Nat) × Conversation) :=
  if conversationOther userId m == userId then acc
  else
    aupdate (conversationKey userId m) (fun c => updateConversation userId c m)
      (match alookup (conversationKey userId m) acc with
       | some _ => acc
       | none => acc ++ [(conversationKey userId m, conversationInit userId m)])

/-- The message fetch of `getUserConversations` (lines 566-607): all
messages the user sends or receives, self-messages excluded, joined
against users and properties, `ORDER BY sent_at DESC`. -/
def fetchUserMessages (db : DB) (userId : Nat) : List Message :=
  sortByDesc (fun m => m.createdAt)
    (db.messages.filter fun m =>
      joinOk db m &&
      (m.senderId == userId || m.receiverId == userId) &&
      !(m.senderId == m.receiverId))

/-- `storage.getUserConversations` of the `chat.tsx` storage variant
(lines 561-652): fold the fetched messages into the conversation map
(JS `Map` iterates in insertion order), then sort the summaries by
last-message timestamp descending (`Array.prototype.sort` is stable). -/
def getUserConversations (db : DB) (userId : Nat) : List Conversation :=
  sortByDesc (fun c => c.lastMessage.createdAt)
    (((fetchUserMessages db userId).foldl (conversationStep userId) []).map Prod.snd)

/-- The operations of the embedded system that touch the message store,
each invoked through its route with the session user as caller. -/
inductive StoreOp where
  | send (sessionUserId receiverId propertyId : Nat) (content : String) (now : Nat)
  | markRead (sessionUserId messageId : Nat)
  | deleteProp (sessionUserId propertyId : Nat)
deriving Repr, DecidableEq

/-- Effect of one operation on the database. -/
def applyOp (db : DB) : StoreOp → DB
  | .send s r p c now =>
    (sendMessageRoute db s { receiverId := r, propertyId := p, content := c } now).1
  | .markRead s mid => markMessageAsRead db mid s
  | .deleteProp s pid => (deleteProperty db pid s).1

/-- Well-formedness of a database state: every message's foreign keys
resolve (the schema's `references(...).notNull()` constraints). -/
def DB.wf (db : DB) : Prop :=
  ∀ m ∈ db.messages, joinOk db m = true

/-! ### Derived predicates and the fold invariant -/

/-- The viewer-relative unread count of a thread inside a message list:
messages of the thread received by the viewer whose read flag is false. -/
def unreadIn (userId : Nat) (k : Nat × Nat × Nat) (l : List Message) : Nat :=
  l.countP fun m => decide (msgKey m = k) && m.receiverId == userId && !m.read

/-- The non-join part of the `getUserConversations` fetch filter: the
viewer participates in the message and it is not a self-message. -/
def eligible (userId : Nat) (m : Message) : Bool :=
  (m.senderId == userId || m.receiverId == userId) && !(m.senderId == m.receiverId)

/-- What the conversation map knows about one entry after processing the
messages `P`: the conversation carries its own key, a key with two
distinct participants one of whom is the viewer, the unread count of its
thread within `P`, and a last message of its thread within `P` of maximal
timestamp. -/
def EntryOk (userId : Nat) (P : List Message) (k : Nat × Nat × Nat)
    (c : Conversation) : Prop :=
  c.id = k ∧ k.2.1 ≠ k.2.2 ∧ (k.2.1 = userId ∨ k.2.2 = userId) ∧
  c.unreadCount = unreadIn userId k P ∧
  c.lastMessage ∈ P ∧ msgKey c.lastMessage = k ∧
  ∀ m ∈ P, msgKey m = k → m.createdAt ≤ c.lastMessage.createdAt

/-- Invariant of the `forEach` fold of `getUserConversations` after
processing the messages `P`: keys are unique, every entry satisfies
`EntryOk`, and keys absent from the map have no messages in `P`. -/
structure ConvInv (userId : Nat) (P : List Message)
    (acc : List ((Nat × Nat × Nat) × Conversation)) : Prop where
  keysNodup : (acc.map Prod.fst).Nodup
  entry : ∀ k c, alookup k acc = some c → EntryOk userId P k c
  absent : ∀ k, alookup k acc = none → ∀ m ∈ P, msgKey m ≠ k

/-- First example message: user 1 asks user 2 about property 1. -/
def exMsg1 : Message :=
  { id := 1, propertyId := 1, senderId := 1, receiverId := 2,
    content := "Er den ledig?", read := false, createdAt := 5 }

/-- Second example message: user 2 replies — same timestamp as `exMsg1`,
larger id. -/
def exMsg2 : Message :=
  { id := 2, propertyId := 1, senderId := 2, receiverId := 1,
    content := "Ja!", read := false, createdAt := 5 }

/-- Example database: users 1 and 2, property 1 owned by user 2, and one
thread holding `exMsg1` and `exMsg2`. -/
def exDb : DB :=
  { userIds := [1, 2], props := [{ id := 1, userId := 2 }],
    messages := [exMsg1, exMsg2], nextId := 3 }

/-- The self-message the `routes.ts` handler persists in the C1 scenario. -/
def exSelfMsg : Message :=
  { id := 3, propertyId := 1, senderId := 1, receiverId := 1,
    content := "hej", read := false, createdAt := 9 }

/-- The empty-content message the handler persists in the C9 scenario. -/
def exEmptyMsg : Message :=
  { id := 3, propertyId := 1, senderId := 1, receiverId := 2,
    content := "", read := false, createdAt := 9 }

/-- The row `createMessage` appends for the send operation's payload. -/
def newMessage (db : DB) (p s r : Nat) (c : String) (now : Nat) : Message :=
  { id := db.nextId, propertyId := p, senderId := s, receiverId := r,
    content := c, read := false, createdAt := now }

/-- The messages carrying a given thread key — §3's definition of a
thread, written from the spec's words for comparison with the code's
query. -/
def specThreadMessages (db : DB) (p a b : Nat) : List Message :=
  db.messages.filter fun m => decide (msgKey m = (p, min a b, max a b))

/-! ### Lemmas about the stable descending sort -/

theorem countP_insertByDesc (key : α → Nat) (p : α → Bool) (x : α) (l : List α) :
    (insertByDesc key x l).countP p = l.countP p + if p x then 1 else 0 := by
  induction l with
  | nil => simp [insertByDesc, List.countP_cons]
  | cons y ys ih =>
    by_cases h : key x < key y
    · simp [insertByDesc, h, List.countP_cons, ih]
      omega
    · simp [insertByDesc, h, List.countP_cons, ih]

theorem countP_sortByDesc (key : α → Nat) (p : α → Bool) (l : List α) :
    (sortByDesc key l).countP p = l.countP p := by
  induction l with
  | nil => rfl
  | cons x xs ih => simp [sortByDesc, countP_insertByDesc, ih, List.countP_cons]

theorem insertByDesc_perm (key : α → Nat) (x : α) (l : List α) :
    (insertByDesc key x l).Perm (x :: l) := by
  induction l with
  | nil => simp [insertByDesc]
  | cons y ys ih =>
    by_cases h : key x < key y
    · simpa [insertByDesc, h] using (ih.cons y).trans (List.Perm.swap x y ys)
    · simp [insertByDesc, h]

theorem sortByDesc_perm (key : α → Nat) (l : List α) :
    (sortByDesc key l).Perm l := by
  induction l with
  | nil => simp [sortByDesc]
  | cons x xs ih => exact (insertByDesc_perm key x (sortByDesc key xs)).trans (ih.cons x)

theorem mem_sortByDesc (key : α → Nat) (l : List α) (a : α) :
    a ∈ sortByDesc key l ↔ a ∈ l :=
  (sortByDesc_perm key l).mem_iff

theorem length_sortByDesc (key : α → Nat) (l : List α) :
    (sortByDesc key l).length = l.length :=
  (sortByDesc_perm key l).length_eq

theorem mem_insertByDesc (key : α → Nat) (x : α) (l : List α) (a : α) :
    a ∈ insertByDesc key x l ↔ a = x ∨ a ∈ l := by
  simpa using (insertByDesc_perm key x l).mem_iff

theorem pairwise_insertByDesc (key : α → Nat) (x : α) (l : List α)
    (h : l.Pairwise fun a b => key b ≤ key a) :
    (insertByDesc key x l).Pairwise fun a b => key b ≤ key a := by
  induction l with
  | nil => simp [insertByDesc]
  | cons y ys ih =>
    rcases List.pairwise_cons.mp h with ⟨hy, hys⟩
    by_cases hk : key x < key y
    · simp only [insertByDesc, if_pos hk]
      refine List.pairwise_cons.mpr ⟨?_, ih hys⟩
      intro a ha
      rcases (mem_insertByDesc key x ys a).mp ha with rfl | ha
      · exact Nat.le_of_lt hk
      · exact hy a ha
    · simp only [insertByDesc, if_neg hk]
      refine List.pairwise_cons.mpr ⟨?_, h⟩
      intro a ha
      rcases List.mem_cons.mp ha with rfl | ha
      · exact Nat.le_of_not_lt hk
      · exact Nat.le_trans (hy a ha) (Nat.le_of_not_lt hk)

theorem pairwise_sortByDesc (key : α → Nat) (l : List α) :
    (sortByDesc key l).Pairwise fun a b => key b ≤ key a := by
  induction l with
  | nil => simp [sortByDesc]
  | cons x xs ih => exact pairwise_insertByDesc key x (sortByDesc key xs) ih

/-! ### Lemmas about the association-list model of the JS `Map` -/

theorem alookup_aupdate_self [DecidableEq κ] (k : κ) (f : α → α)
    (l : List (κ × α)) : alookup k (aupdate k f l) = (alookup k l).map f := by
  induction l with
  | nil => rfl
  | cons e es ih =>
    by_cases h : e.1 = k <;> simp [alookup, aupdate, h, ih]

theorem alookup_aupdate_ne [DecidableEq κ] (k k' : κ) (f : α → α)
    (l : List (κ × α)) (h : k' ≠ k) :
    alookup k' (aupdate k f l) = alookup k' l := by
  induction l with
  | nil => rfl
  | cons e es ih =>
    by_cases he : e.1 = k
    · subst he
      simp [alookup, aupdate, Ne.symm h]
    · by_cases he' : e.1 = k' <;> simp [alookup, aupdate, he, he', h, ih]

theorem alookup_append_single [DecidableEq κ] (k : κ) (e : κ × α)
    (l : List (κ × α)) :
    alookup k (l ++ [e]) =
      match alookup k l with
      | some c => some c
      | none => if e.1 = k then some e.2 else none := by
  induction l with
  | nil => simp [alookup]
  | cons e' es ih =>
    by_cases h : e'.1 = k <;> simp [alookup, h, ih]

theorem keys_aupdate [DecidableEq κ] (k : κ) (f : α → α) (l : List (κ × α)) :
    (aupdate k f l).map Prod.fst = l.map Prod.fst := by
  induction l with
  | nil => rfl
  | cons e es ih =>
    by_cases h : e.1 = k <;> simp [aupdate, h, ih]

theorem alookup_eq_none_iff [DecidableEq κ] (k : κ) (l : List (κ × α)) :
    alookup k l = none ↔ ∀ e ∈ l, e.1 ≠ k := by
  induction l with
  | nil => simp [alookup]
  | cons e es ih =>
    by_cases h : e.1 = k <;> simp [alookup, h, ih]

theorem alookup_mem_keys [DecidableEq κ] (k : κ) (c : α) (l : List (κ × α))
    (h : alookup k l = some c) : k ∈ l.map Prod.fst := by
  induction l with
  | nil => simp [alookup] at h
  | cons e es ih =>
    by_cases he : e.1 = k
    · simp [he]
    · simp [alookup, he] at h
      simp [ih h]

theorem mem_snd_exists_alookup [DecidableEq κ] (l : List (κ × α)) (c : α)
    (hnd : (l.map Prod.fst).Nodup) (hc : c ∈ l.map Prod.snd) :
    ∃ k, alookup k l = some c := by
  induction l with
  | nil => simp at hc
  | cons e es ih =>
    rcases List.mem_cons.mp hc with hc | hc
    · exact ⟨e.1, by simp [alookup, hc.symm]⟩
    · rcases ih (List.nodup_cons.mp hnd).2 hc with ⟨k, hk⟩
      refine ⟨k, ?_⟩
      have : e.1 ≠ k := fun h => (List.nodup_cons.mp hnd).1 (h ▸ alookup_mem_keys k c es hk)
      simp [alookup, this, hk]

/-! ### The conversation fold invariant -/

theorem eligible_iff (userId : Nat) (m : Message) :
    eligible userId m = true ↔
      (m.senderId = userId ∨ m.receiverId = userId) ∧ m.senderId ≠ m.receiverId := by
  simp [eligible]

/-- For an eligible message the other participant computed by the fold is
not the viewer, and the fold's conversation key is the message's thread
key. -/
theorem conversationStep_key (userId : Nat) (m : Message)
    (hm : eligible userId m = true) :
    conversationOther userId m ≠ userId ∧
      conversationKey userId m = msgKey m := by
  rcases (eligible_iff userId m).mp hm with ⟨hin, hne⟩
  by_cases hs : m.senderId = userId
  · have hb : (m.senderId == userId) = true := beq_iff_eq.mpr hs
    simp only [conversationKey, conversationOther, hb, if_true, msgKey]
    exact ⟨fun h => hne (hs.trans h.symm), by rw [hs]⟩
  · have hr : m.receiverId = userId := hin.resolve_left hs
    have hb : (m.senderId == userId) = false := by simp [hs]
    simp only [conversationKey, conversationOther, hb, Bool.false_eq_true, if_false,
      msgKey, hr]
    refine ⟨hs, ?_⟩
    have h1 : min userId m.senderId = min m.senderId userId := Nat.min_comm _ _
    have h2 : max userId m.senderId = max m.senderId userId := Nat.max_comm _ _
    rw [h1, h2]

theorem updateConversation_id (userId : Nat) (c : Conversation) (m : Message) :
    (updateConversation userId c m).id = c.id := by
  unfold updateConversation
  dsimp only
  split <;> split <;> rfl

theorem updateConversation_propertyId (userId : Nat) (c : Conversation)
    (m : Message) :
    (updateConversation userId c m).propertyId = c.propertyId := by
  unfold updateConversation
  dsimp only
  split <;> split <;> rfl

theorem updateConversation_unreadCount (userId : Nat) (c : Conversation)
    (m : Message) :
    (updateConversation userId c m).unreadCount =
      c.unreadCount + if m.receiverId == userId && !m.read then 1 else 0 := by
  unfold updateConversation
  dsimp only
  split <;> split <;> rfl

theorem updateConversation_lastMessage (userId : Nat) (c : Conversation)
    (m : Message) :
    (updateConversation userId c m).lastMessage =
      if c.lastMessage.createdAt < m.createdAt then m else c.lastMessage := by
  unfold updateConversation
  dsimp only
  split <;> split <;> simp_all

theorem unreadIn_append_single (userId : Nat) (k : Nat × Nat × Nat)
    (P : List Message) (m : Message) :
    unreadIn userId k (P ++ [m]) =
      unreadIn userId k P +
        if decide (msgKey m = k) && m.receiverId == userId && !m.read then 1
        else 0 := by
  simp [unreadIn, List.countP_append, List.countP_cons]

theorem convInv_nil (userId : Nat) : ConvInv userId [] [] where
  keysNodup := List.nodup_nil
  entry := fun k c h => by simp [alookup] at h
  absent := fun k _ m hm => by simp at hm

/-- A message of a different thread leaves an entry's facts intact. -/
theorem EntryOk_extend (userId : Nat) (P : List Message) (m : Message)
    (k : Nat × Nat × Nat) (c : Conversation) (hmk : msgKey m ≠ k)
    (h : EntryOk userId P k c) : EntryOk userId (P ++ [m]) k c := by
  obtain ⟨hid, hkne, huser, hcnt, hmem, hkeym, hmax⟩ := h
  refine ⟨hid, hkne, huser, ?_, List.mem_append_left _ hmem, hkeym, ?_⟩
  · rw [unreadIn_append_single, hcnt]
    simp [hmk]
  · intro m' hm' hk'
    rcases List.mem_append.mp hm' with h' | h'
    · exact hmax m' h' hk'
    · rw [List.mem_singleton.mp h'] at hk'
      exact absurd hk' hmk

/-- Processing a message of the entry's own thread updates the entry's
facts to the extended message list. -/
theorem EntryOk_update (userId : Nat) (P : List Message) (m : Message)
    (k : Nat × Nat × Nat) (c : Conversation) (hmk : msgKey m = k)
    (h : EntryOk userId P k c) :
    EntryOk userId (P ++ [m]) k (updateConversation userId c m) := by
  obtain ⟨hid, hkne, huser, hcnt, hmem, hkeym, hmax⟩ := h
  refine ⟨?_, hkne, huser, ?_, ?_, ?_, ?_⟩
  · rw [updateConversation_id]; exact hid
  · rw [updateConversation_unreadCount, unreadIn_append_single, hcnt, hmk]
    simp
  · rw [updateConversation_lastMessage]
    split
    · exact List.mem_append_right _ (List.mem_singleton.mpr rfl)
    · exact List.mem_append_left _ hmem
  · rw [updateConversation_lastMessage]
    split
    · exact hmk
    · exact hkeym
  · intro m' hm' hk'
    rw [updateConversation_lastMessage]
    rcases List.mem_append.mp hm' with h' | h'
    · have := hmax m' h' hk'
      split <;> omega
    · rw [List.mem_singleton.mp h']
      split <;> omega

/-- The entry created for a fresh key, after its own first message has
been folded in. -/
theorem EntryOk_new (userId : Nat) (P : List Message) (m : Message)
    (hm : eligible userId m = true)
    (habs : ∀ m' ∈ P, msgKey m' ≠ conversationKey userId m) :
    EntryOk userId (P ++ [m]) (conversationKey userId m)
      (updateConversation userId (conversationInit userId m) m) := by
  obtain ⟨hne, hkeq⟩ := conversationStep_key userId m hm
  have hcnt0 : unreadIn userId (conversationKey userId m) P = 0 := by
    refine List.countP_eq_zero.mpr ?_
    intro m' hm'
    simp only [Bool.and_eq_true, decide_eq_true_eq]
    intro h
    exact absurd h.1.1 (habs m' hm')
  have hlast : (updateConversation userId (conversationInit userId m) m).lastMessage
      = m := by
    rw [updateConversation_lastMessage]
    simp [conversationInit]
  refine ⟨?_, ?_, ?_, ?_, ?_, ?_, ?_⟩
  · rw [updateConversation_id]; rfl
  · show min userId (conversationOther userId m) ≠
      max userId (conversationOther userId m)
    exact Nat.ne_of_lt (min_lt_max.mpr (Ne.symm hne))
  · show min userId (conversationOther userId m) = userId ∨
      max userId (conversationOther userId m) = userId
    rcases Nat.le_total userId (conversationOther userId m) with h | h
    · exact Or.inl (Nat.min_eq_left h)
    · exact Or.inr (Nat.max_eq_left h)
  · rw [updateConversation_unreadCount, unreadIn_append_single, hcnt0, hkeq]
    simp [conversationInit]
  · rw [hlast]
    exact List.mem_append_right _ (List.mem_singleton.mpr rfl)
  · rw [hlast]; exact hkeq.symm
  · intro m' hm' hk'
    rw [hlast]
    rcases List.mem_append.mp hm' with h' | h'
    · exact absurd hk' (habs m' h')
    · rw [List.mem_singleton.mp h']

/-- One fold step preserves the conversation-map invariant. -/
theorem convInv_step (userId : Nat) (P : List Message)
    (acc : List ((Nat × Nat × Nat) × Conversation)) (m : Message)
    (hm : eligible userId m = true) (hinv : ConvInv userId P acc) :
    ConvInv userId (P ++ [m]) (conversationStep userId acc m) := by
  obtain ⟨hne, hkeq⟩ := conversationStep_key userId m hm
  have hosk : (conversationOther userId m == userId) = false := by
    simp [hne]
  cases hl : alookup (conversationKey userId m) acc with
  | some c0 =>
    have hstep : conversationStep userId acc m =
        aupdate (conversationKey userId m)
          (fun c => updateConversation userId c m) acc := by
      simp only [conversationStep, hosk, Bool.false_eq_true, if_false, hl]
    rw [hstep]
    refine ⟨?_, ?_, ?_⟩
    · rw [keys_aupdate]; exact hinv.keysNodup
    · intro k c hkc
      by_cases hk : k = conversationKey userId m
      · subst hk
        rw [alookup_aupdate_self, hl] at hkc
        simp only [Option.map_some'] at hkc
        injection hkc with h
        rw [← h]
        exact EntryOk_update userId P m _ c0 hkeq.symm (hinv.entry _ c0 hl)
      · rw [alookup_aupdate_ne _ _ _ _ hk] at hkc
        refine EntryOk_extend userId P m k c ?_ (hinv.entry k c hkc)
        rw [← hkeq]; exact fun h => hk h.symm
    · intro k hknone m' hm'
      have hkne : k ≠ conversationKey userId m := by
        intro h
        rw [h, alookup_aupdate_self, hl] at hknone
        simp at hknone
      rw [alookup_aupdate_ne _ _ _ _ hkne] at hknone
      rcases List.mem_append.mp hm' with h' | h'
      · exact hinv.absent k hknone m' h'
      · rw [List.mem_singleton.mp h', ← hkeq]
        exact fun h => hkne h.symm
  | none =>
    have hstep : conversationStep userId acc m =
        aupdate (conversationKey userId m)
          (fun c => updateConversation userId c m)
          (acc ++ [(conversationKey userId m, conversationInit userId m)]) := by
      simp only [conversationStep, hosk, Bool.false_eq_true, if_false, hl]
    have hnotmem : conversationKey userId m ∉ acc.map Prod.fst := by
      intro hmem
      rcases List.mem_map.mp hmem with ⟨e, he, heq⟩
      exact absurd heq ((alookup_eq_none_iff _ _).mp hl e he)
    have habs := hinv.absent _ hl
    rw [hstep]
    refine ⟨?_, ?_, ?_⟩
    · rw [keys_aupdate, List.map_append]
      exact List.nodup_append.mpr
        ⟨hinv.keysNodup, List.nodup_singleton _,
          by simpa [List.disjoint_singleton] using hnotmem⟩
    · intro k c hkc
      by_cases hk : k = conversationKey userId m
      · subst hk
        rw [alookup_aupdate_self, alookup_append_single, hl] at hkc
        simp only [Option.map_some', if_pos rfl] at hkc
        injection hkc with h
        rw [← h]
        exact EntryOk_new userId P m hm habs
      · rw [alookup_aupdate_ne _ _ _ _ hk, alookup_append_single] at hkc
        cases hl' : alookup k acc with
        | some c' =>
          rw [hl'] at hkc
          injection hkc with h
          rw [← h]
          refine EntryOk_extend userId P m k c' ?_ (hinv.entry k c' hl')
          rw [← hkeq]; exact fun hh => hk hh.symm
        | none =>
          rw [hl'] at hkc
          rw [if_neg (fun hh => hk hh.symm)] at hkc
          exact absurd hkc (by simp)
    · intro k hknone m' hm'
      have hkne : k ≠ conversationKey userId m := by
        intro h
        rw [h, alookup_aupdate_self, alookup_append_single, hl] at hknone
        simp at hknone
      rw [alookup_aupdate_ne _ _ _ _ hkne, alookup_append_single] at hknone
      cases hl' : alookup k acc with
      | some c' => rw [hl'] at hknone; simp at hknone
      | none =>
        rcases List.mem_append.mp hm' with h' | h'
        · exact hinv.absent k hl' m' h'
        · rw [List.mem_singleton.mp h', ← hkeq]
          exact fun h => hkne h.symm

/-- Folding a list of eligible messages preserves the invariant. -/
theorem convInv_foldl (userId : Nat) :
    ∀ (L P : List Message) (acc : List ((Nat × Nat × Nat) × Conversation)),
      (∀ m ∈ L, eligible userId m = true) → ConvInv userId P acc →
      ConvInv userId (P ++ L) (L.foldl (conversationStep userId) acc)
  | [], P, acc, _, hinv => by simpa using hinv
  | m :: L, P, acc, hL, hinv => by
    have h1 := convInv_step userId P acc m (hL m (List.mem_cons_self m L)) hinv
    have h2 := convInv_foldl userId L (P ++ [m]) (conversationStep userId acc m)
      (fun m' hm' => hL m' (List.mem_cons_of_mem m hm')) h1
    simpa using h2

/-- Every fetched message is eligible and belongs to the store. -/
theorem fetchUserMessages_mem (db : DB) (userId : Nat) (m : Message)
    (hm : m ∈ fetchUserMessages db userId) :
    m ∈ db.messages ∧ joinOk db m = true ∧ eligible userId m = true := by
  rw [fetchUserMessages, mem_sortByDesc] at hm
  rcases List.mem_filter.mp hm with ⟨hmem, hpred⟩
  simp only [Bool.and_eq_true] at hpred
  exact ⟨hmem, hpred.1.1, by
    simp only [eligible, Bool.and_eq_true]
    exact ⟨hpred.1.2, hpred.2⟩⟩

/-- The invariant holds for the fully folded conversation map. -/
theorem convInv_final (db : DB) (userId : Nat) :
    ConvInv userId (fetchUserMessages db userId)
      ((fetchUserMessages db userId).foldl (conversationStep userId) []) := by
  have hel : ∀ m ∈ fetchUserMessages db userId, eligible userId m = true :=
    fun m hm => (fetchUserMessages_mem db userId m hm).2.2
  simpa using
    convInv_foldl userId (fetchUserMessages db userId) [] [] hel (convInv_nil userId)

/-! ### Arithmetic and list helpers -/

theorem countP_ext (l : List α) (p q : α → Bool)
    (h : ∀ a ∈ l, p a = q a) : l.countP p = l.countP q := by
  induction l with
  | nil => rfl
  | cons x xs ih =>
    simp only [List.countP_cons, h x (List.mem_cons_self x xs),
      ih fun a ha => h a (List.mem_cons_of_mem x ha)]

theorem min_max_pair_eq (s r a b : Nat)
    (h2 : min s r = min a b) (h3 : max s r = max a b) :
    (s = a ∧ r = b) ∨ (s = b ∧ r = a) := by
  rw [Nat.min_def, Nat.min_def] at h2
  rw [Nat.max_def, Nat.max_def] at h3
  split_ifs at h2 h3 <;> omega

theorem min_eq_or (s r u : Nat) (h : min s r = u) : s = u ∨ r = u := by
  rw [Nat.min_def] at h; split_ifs at h <;> omega

theorem max_eq_or (s r u : Nat) (h : max s r = u) : s = u ∨ r = u := by
  rw [Nat.max_def] at h; split_ifs at h <;> omega

/-- A message whose thread key has two distinct participants, one of whom
is the viewer, passes the viewer's eligibility filter. -/
theorem thread_member_eligible (userId : Nat) (k : Nat × Nat × Nat)
    (m : Message) (hkm : msgKey m = k) (hkne : k.2.1 ≠ k.2.2)
    (huser : k.2.1 = userId ∨ k.2.2 = userId) :
    eligible userId m = true := by
  rw [eligible_iff]
  rw [msgKey, Prod.ext_iff, Prod.ext_iff] at hkm
  have h2 := hkm.2.1
  have h3 := hkm.2.2
  constructor
  · rcases huser with h | h
    · exact min_eq_or _ _ _ (h2.trans h)
    · exact max_eq_or _ _ _ (h3.trans h)
  · intro hsr
    apply hkne
    rw [← h2, ← h3, hsr, Nat.min_self, Nat.max_self]

/-! ### The claims -/

/-- **C4** — thread retrieval is symmetric in its two participant
arguments: `getConversationMessages` returns the identical message list
(hence the identical message set) when viewer and other participant are
swapped, whatever the database, property, page and limit. -/
theorem thread_fetch_symmetric (db : DB) (p a b page limit : Nat) :
    getConversationMessages db p a b page limit =
      getConversationMessages db p b a page limit := by
  have hf : (db.messages.filter fun m =>
        joinOk db m && m.propertyId == p &&
        ((m.senderId == a && m.receiverId == b) ||
          (m.senderId == b && m.receiverId == a)) &&
        !(m.senderId == m.receiverId)) =
      (db.messages.filter fun m =>
        joinOk db m && m.propertyId == p &&
        ((m.senderId == b && m.receiverId == a) ||
          (m.senderId == a && m.receiverId == b)) &&
        !(m.senderId == m.receiverId)) := by
    apply List.filter_congr
    intro m _
    rw [Bool.or_comm (m.senderId == a && m.receiverId == b)
      (m.senderId == b && m.receiverId == a)]
  simp only [getConversationMessages, hf]

/-- **C6** — `markMessageAsRead` is idempotent: a second identical call
leaves the database exactly as the first left it (no error, no further
state change), and after one call every stored message with the given id
whose receiver is the caller has `read = true`. -/
theorem markRead_idempotent (db : DB) (messageId userId : Nat) :
    markMessageAsRead (markMessageAsRead db messageId userId) messageId userId =
      markMessageAsRead db messageId userId ∧
    ∀ m ∈ (markMessageAsRead db messageId userId).messages,
      m.id = messageId → m.receiverId = userId → m.read = true := by
  constructor
  · simp only [markMessageAsRead, List.map_map]
    congr 1
    apply List.map_congr_left
    intro m _
    by_cases h : (m.id == messageId && m.receiverId == userId) = true <;>
      simp [Function.comp, h]
  · intro m hm hid hrecv
    simp only [markMessageAsRead, List.mem_map] at hm
    rcases hm with ⟨m0, _, hm0⟩
    by_cases h : (m0.id == messageId && m0.receiverId == userId) = true
    · rw [← hm0]; simp [h]
    · rw [if_neg h] at hm0
      subst hm0
      exact absurd (by simp [hid, hrecv]) h

/-- Witness for C6 at the example database. -/
theorem markRead_idempotent_witness :
    markMessageAsRead (markMessageAsRead exDb 1 2) 1 2 =
      markMessageAsRead exDb 1 2 ∧
    ∀ m ∈ (markMessageAsRead exDb 1 2).messages,
      m.id = 1 → m.receiverId = 2 → m.read = true :=
  markRead_idempotent exDb 1 2

/-- **C7** — when no stored message has the given id with the caller as
receiver (the message does not exist, or the caller — e.g. the sender —
is not its receiver), `markMessageAsRead` leaves the database entirely
unchanged. -/
theorem markRead_nonreceiver_noop (db : DB) (messageId userId : Nat)
    (h : ∀ m ∈ db.messages, m.id = messageId → m.receiverId ≠ userId) :
    markMessageAsRead db messageId userId = db := by
  have hmm : (db.messages.map fun m =>
      if m.id == messageId && m.receiverId == userId then
        { m with read := true }
      else m) = db.messages := by
    have := List.map_congr_left (l := db.messages)
      (f := fun m => if m.id == messageId && m.receiverId == userId then
        { m with read := true } else m) (g := id) ?_
    · simpa using this
    · intro m hm
      by_cases h1 : m.id = messageId
      · simp [h1, h m hm h1]
      · simp [h1]
  simp only [markMessageAsRead, hmm]

/-- Witness for C7: user 1 (the sender of `exMsg1`) cannot mark it read. -/
theorem markRead_nonreceiver_noop_witness :
    (∀ m ∈ exDb.messages, m.id = 1 → m.receiverId ≠ 1) ∧
      markMessageAsRead exDb 1 1 = exDb :=
  ⟨by decide, markRead_nonreceiver_noop exDb 1 1 (by decide)⟩

/-- **C10** — `deleteProperty` deletes the property's messages before
checking ownership: when no stored property row has the given id owned by
the caller (wrong owner or nonexistent property), the call returns
`false` and leaves the property rows untouched, yet the listing's entire
message history has already been erased. -/
theorem deleteProperty_non_atomic (db : DB) (propId callerId : Nat)
    (h : ∀ pr ∈ db.props, pr.id = propId → pr.userId ≠ callerId) :
    (deleteProperty db propId callerId).2 = false ∧
    (deleteProperty db propId callerId).1.props = db.props ∧
    (deleteProperty db propId callerId).1.messages =
      db.messages.filter (fun m => !(m.propertyId == propId)) := by
  have hzero : (db.props.countP fun pr => pr.id == propId && pr.userId == callerId) = 0 := by
    apply List.countP_eq_zero.mpr
    intro pr hpr
    simp only [Bool.and_eq_true, beq_iff_eq]
    rintro ⟨h1, h2⟩
    exact h pr hpr h1 h2
  refine ⟨?_, ?_, rfl⟩
  · simp [deleteProperty, hzero]
  · show db.props.filter _ = db.props
    apply List.filter_eq_self.mpr
    intro pr hpr
    simp only [Bool.not_eq_true', Bool.and_eq_false_iff]
    by_cases h1 : pr.id = propId
    · right
      simp only [beq_eq_false_iff_ne, ne_eq]
      exact h pr hpr h1
    · left
      simp [h1]

/-- Witness for C10: user 99 does not own property 1; the delete call
reports failure and keeps the property, but property 1's messages are
gone. -/
theorem deleteProperty_non_atomic_witness :
    (∀ pr ∈ exDb.props, pr.id = 1 → pr.userId ≠ 99) ∧
      ((deleteProperty exDb 1 99).2 = false ∧
        (deleteProperty exDb 1 99).1.props = exDb.props ∧
        (deleteProperty exDb 1 99).1.messages =
          exDb.messages.filter (fun m => !(m.propertyId == 1))) :=
  ⟨by decide, deleteProperty_non_atomic exDb 1 99 (by decide)⟩

/-- **C1** — the claim fails on `server/routes.ts`: with user 1 and
property 1 existing, a `POST /api/messages` call whose authenticated
sender and supplied receiver are both user 1 is accepted by the
`routes.ts` handler and the self-message is persisted — that handler has
no sender-equals-receiver validation.  The `part_005` variant handler
rejects the very same call with the validation error and leaves the
store unchanged, so the guard the spec mandates exists only in that
variant. -/
theorem self_message_persisted :
    (sendMessageRoute exDb 1
        { receiverId := 1, propertyId := 1, content := "hej" } 9).2 =
      HttpResult.ok exSelfMsg ∧
    (sendMessageRoute exDb 1
        { receiverId := 1, propertyId := 1, content := "hej" } 9).1.messages =
      exDb.messages ++ [exSelfMsg] ∧
    exSelfMsg.senderId = exSelfMsg.receiverId ∧
    (sendMessageRouteGuarded exDb 1
        { receiverId := 1, propertyId := 1, content := "hej" } 9).2 =
      HttpResult.badRequest "Cannot send message to yourself" ∧
    (sendMessageRouteGuarded exDb 1
        { receiverId := 1, propertyId := 1, content := "hej" } 9).1 = exDb :=
  ⟨rfl, rfl, rfl, rfl, rfl⟩

/-- **C9 counterexample** — a `POST /api/messages` call whose content is
the empty string is not rejected: `insertMessageSchema` only checks that
content is a string, so the handler persists a message with empty
content. -/
theorem empty_content_accepted :
    (sendMessageRoute exDb 1
        { receiverId := 2, propertyId := 1, content := "" } 9).2 =
      HttpResult.ok exEmptyMsg ∧
    (sendMessageRoute exDb 1
        { receiverId := 2, propertyId := 1, content := "" } 9).1.messages =
      exDb.messages ++ [exEmptyMsg] :=
  ⟨rfl, rfl⟩

/-- **C9 amended** — the creation boundary performs no content
validation: whenever the referenced sender, receiver and property exist,
the `routes.ts` handler accepts the request — whatever its content
string, the empty string included — and appends one message carrying
exactly that content. -/
theorem send_message_ignores_content (db : DB) (sessionUserId : Nat)
    (body : MessageBody) (now : Nat)
    (hs : db.userIds.contains sessionUserId = true)
    (hr : db.userIds.contains body.receiverId = true)
    (hp : db.props.any (fun pr => pr.id == body.propertyId) = true) :
    (sendMessageRoute db sessionUserId body now).2 =
      HttpResult.ok
        { id := db.nextId, propertyId := body.propertyId,
          senderId := sessionUserId, receiverId := body.receiverId,
          content := body.content, read := false, createdAt := now } ∧
    (sendMessageRoute db sessionUserId body now).1.messages =
      db.messages ++
        [{ id := db.nextId, propertyId := body.propertyId,
           senderId := sessionUserId, receiverId := body.receiverId,
           content := body.content, read := false, createdAt := now }] := by
  have hg : (db.userIds.contains sessionUserId &&
      db.userIds.contains body.receiverId &&
      db.props.any (fun pr => pr.id == body.propertyId)) = true := by
    rw [hs, hr, hp]; rfl
  simp only [sendMessageRoute, createMessage, hg, if_true]
  exact ⟨trivial, trivial⟩

/-- Witness for the amended C9 at an empty-string content. -/
theorem send_message_ignores_content_witness :
    (exDb.userIds.contains 1 = true ∧ exDb.userIds.contains 2 = true ∧
      exDb.props.any (fun pr => pr.id == 1) = true) ∧
    (sendMessageRoute exDb 1
        { receiverId := 2, propertyId := 1, content := "" } 9).2 =
      HttpResult.ok
        { id := exDb.nextId, propertyId := 1, senderId := 1, receiverId := 2,
          content := "", read := false, createdAt := 9 } ∧
    (sendMessageRoute exDb 1
        { receiverId := 2, propertyId := 1, content := "" } 9).1.messages =
      exDb.messages ++
        [{ id := exDb.nextId, propertyId := 1, senderId := 1, receiverId := 2,
           content := "", read := false, createdAt := 9 }] :=
  ⟨⟨by decide, by decide, by decide⟩,
    (send_message_ignores_content exDb 1
      { receiverId := 2, propertyId := 1, content := "" } 9
      (by decide) (by decide) (by decide)).1,
    (send_message_ignores_content exDb 1
      { receiverId := 2, propertyId := 1, content := "" } 9
      (by decide) (by decide) (by decide)).2⟩

/-- With unique ids, two stored messages sharing an id are the same row. -/
theorem eq_of_mem_id (l : List Message)
    (hnd : (l.map Message.id).Nodup) (m m' : Message)
    (hm : m ∈ l) (hm' : m' ∈ l) (hid : m'.id = m.id) : m' = m :=
  List.inj_on_of_nodup_map hnd hm' hm hid

/-- **C8** — the read flag's two-state machine, over every store
operation issued through the routes: (a) a message whose id was not
present before the operation carries `read = false` (messages are created
unread); (b) a message that was read stays read (no operation resets the
flag); (c) the only way a stored message flips from unread to read is the
`markRead` operation called with that message's receiver as the
authenticated session user and that message's id. -/
theorem read_flag_state_machine (db : DB) (op : StoreOp)
    (hfresh : ∀ m ∈ db.messages, m.id < db.nextId)
    (hnodup : (db.messages.map Message.id).Nodup) :
    (∀ m' ∈ (applyOp db op).messages,
      (∀ m ∈ db.messages, m.id ≠ m'.id) → m'.read = false) ∧
    (∀ m ∈ db.messages, ∀ m' ∈ (applyOp db op).messages, m'.id = m.id →
      m.read = true → m'.read = true) ∧
    (∀ m ∈ db.messages, ∀ m' ∈ (applyOp db op).messages, m'.id = m.id →
      m.read = false → m'.read = true →
      op = StoreOp.markRead m.receiverId m.id) := by
  cases op with
  | send s r p c now =>
    have hmsgs : (applyOp db (StoreOp.send s r p c now)).messages = db.messages ∨
        (applyOp db (StoreOp.send s r p c now)).messages =
          db.messages ++ [newMessage db p s r c now] := by
      by_cases hg : (db.userIds.contains s && db.userIds.contains r &&
          db.props.any (fun pr => pr.id == p)) = true
      · right
        simp only [applyOp, sendMessageRoute, createMessage, hg, if_true,
          newMessage]
      · left
        simp only [applyOp, sendMessageRoute, createMessage, hg,
          Bool.false_eq_true, if_false]
    rcases hmsgs with hmsgs | hmsgs <;> rw [hmsgs]
    · refine ⟨?_, ?_, ?_⟩
      · intro m' hm' hnone
        exact absurd rfl (hnone m' hm')
      · intro m hm m' hm' hid hread
        rw [eq_of_mem_id db.messages hnodup m m' hm hm' hid]
        exact hread
      · intro m hm m' hm' hid hunread hread
        rw [eq_of_mem_id db.messages hnodup m m' hm hm' hid] at hread
        rw [hunread] at hread
        exact absurd hread (by simp)
    · refine ⟨?_, ?_, ?_⟩
      · intro m' hm' hnone
        rcases List.mem_append.mp hm' with h' | h'
        · exact absurd rfl (hnone m' h')
        · rw [List.mem_singleton.mp h']; rfl
      · intro m hm m' hm' hid hread
        rcases List.mem_append.mp hm' with h' | h'
        · rw [eq_of_mem_id db.messages hnodup m m' hm h' hid]
          exact hread
        · rw [List.mem_singleton.mp h'] at hid
          exact absurd hid.symm (Nat.ne_of_lt (hfresh m hm))
      · intro m hm m' hm' hid hunread hread
        rcases List.mem_append.mp hm' with h' | h'
        · rw [eq_of_mem_id db.messages hnodup m m' hm h' hid] at hread
          rw [hunread] at hread
          exact absurd hread (by simp)
        · rw [List.mem_singleton.mp h'] at hread
          exact absurd hread (by simp [newMessage])
  | markRead s mid =>
    have hmsgs : (applyOp db (StoreOp.markRead s mid)).messages =
        db.messages.map fun m =>
          if m.id == mid && m.receiverId == s then { m with read := true }
          else m := rfl
    rw [hmsgs]
    have hshape : ∀ m0 : Message,
        ((if m0.id == mid && m0.receiverId == s then
            { m0 with read := true } else m0) : Message).id = m0.id ∧
        ((if m0.id == mid && m0.receiverId == s then
            { m0 with read := true } else m0) : Message).receiverId = m0.receiverId := by
      intro m0
      split <;> exact ⟨rfl, rfl⟩
    refine ⟨?_, ?_, ?_⟩
    · intro m' hm' hnone
      rcases List.mem_map.mp hm' with ⟨m0, hm0, heq⟩
      have : m0.id = m'.id := by rw [← heq]; exact ((hshape m0).1).symm
      exact absurd this (hnone m0 hm0)
    · intro m hm m' hm' hid hread
      rcases List.mem_map.mp hm' with ⟨m0, hm0, heq⟩
      have hid0 : m0.id = m.id := by
        rw [← hid, ← heq]; exact ((hshape m0).1).symm
      rw [eq_of_mem_id db.messages hnodup m m0 hm hm0 hid0] at heq
      rw [← heq]
      split
      · rfl
      · exact hread
    · intro m hm m' hm' hid hunread hread
      rcases List.mem_map.mp hm' with ⟨m0, hm0, heq⟩
      have hid0 : m0.id = m.id := by
        rw [← hid, ← heq]; exact ((hshape m0).1).symm
      rw [eq_of_mem_id db.messages hnodup m m0 hm hm0 hid0] at heq
      by_cases hc : (m.id == mid && m.receiverId == s) = true
      · simp only [Bool.and_eq_true, beq_iff_eq] at hc
        obtain ⟨h1, h2⟩ := hc
        rw [← h1, ← h2]
      · rw [if_neg hc] at heq
        rw [← heq] at hread
        rw [hunread] at hread
        exact absurd hread (by simp)
  | deleteProp s pid =>
    have hmsgs : (applyOp db (StoreOp.deleteProp s pid)).messages =
        db.messages.filter fun m => !(m.propertyId == pid) := rfl
    rw [hmsgs]
    refine ⟨?_, ?_, ?_⟩
    · intro m' hm' hnone
      exact absurd rfl (hnone m' (List.mem_of_mem_filter hm'))
    · intro m hm m' hm' hid hread
      rw [eq_of_mem_id db.messages hnodup m m' hm
        (List.mem_of_mem_filter hm') hid]
      exact hread
    · intro m hm m' hm' hid hunread hread
      rw [eq_of_mem_id db.messages hnodup m m' hm
        (List.mem_of_mem_filter hm') hid] at hread
      rw [hunread] at hread
      exact absurd hread (by simp)

/-- Witness for C8: a `markRead` call by the receiver of `exMsg1` on the
example database, whose ids are fresh and unique. -/
theorem read_flag_state_machine_witness :
    ((∀ m ∈ exDb.messages, m.id < exDb.nextId) ∧
      (exDb.messages.map Message.id).Nodup) ∧
    (∀ m' ∈ (applyOp exDb (StoreOp.markRead 2 1)).messages,
      (∀ m ∈ exDb.messages, m.id ≠ m'.id) → m'.read = false) ∧
    (∀ m ∈ exDb.messages, ∀ m' ∈ (applyOp exDb (StoreOp.markRead 2 1)).messages,
      m'.id = m.id → m.read = true → m'.read = true) ∧
    (∀ m ∈ exDb.messages, ∀ m' ∈ (applyOp exDb (StoreOp.markRead 2 1)).messages,
      m'.id = m.id → m.read = false → m'.read = true →
      StoreOp.markRead 2 1 = StoreOp.markRead m.receiverId m.id) :=
  ⟨⟨by decide, by decide⟩,
    (read_flag_state_machine exDb (StoreOp.markRead 2 1) (by decide) (by decide)).1,
    (read_flag_state_machine exDb (StoreOp.markRead 2 1) (by decide) (by decide)).2.1,
    (read_flag_state_machine exDb (StoreOp.markRead 2 1) (by decide) (by decide)).2.2⟩

/-- **C2** — for every viewer, the unread count `getUserConversations`
reports for each conversation equals the number of stored messages of
that thread whose receiver is the viewer and whose read flag is false.
The count is a function of the viewer argument alone, so two viewers of
the same thread each get the count over their own inbound unread
messages. -/
theorem conversation_unread_count (db : DB) (userId : Nat) (hwf : DB.wf db) :
    ∀ c ∈ getUserConversations db userId,
      c.unreadCount = db.messages.countP
        (fun m => decide (msgKey m = c.id) && m.receiverId == userId && !m.read) := by
  intro c hc
  rw [getUserConversations, mem_sortByDesc] at hc
  obtain ⟨k, hk⟩ :=
    mem_snd_exists_alookup _ c (convInv_final db userId).keysNodup hc
  obtain ⟨hid, hkne, huser, hcnt, hmem, hkeym, hmax⟩ :=
    (convInv_final db userId).entry k c hk
  subst hid
  rw [hcnt, unreadIn, fetchUserMessages, countP_sortByDesc, List.countP_filter]
  apply countP_ext
  intro m hm
  cases hpred : (decide (msgKey m = c.id) && m.receiverId == userId && !m.read) with
  | false => simp [hpred]
  | true =>
    simp only [Bool.and_eq_true, decide_eq_true_eq] at hpred
    obtain ⟨⟨hkeq, hrecv⟩, hunread⟩ := hpred
    have hel := thread_member_eligible userId c.id m hkeq hkne huser
    have hjoin := hwf m hm
    simp only [eligible, Bool.and_eq_true] at hel
    simp [hkeq, hrecv, hunread, hjoin, hel.1, hel.2]

/-- Witness for C2: viewer 2's single conversation in the example
database. -/
theorem conversation_unread_count_witness :
    DB.wf exDb ∧
    ∀ c ∈ getUserConversations exDb 2,
      c.unreadCount = exDb.messages.countP
        (fun m => decide (msgKey m = c.id) && m.receiverId == 2 && !m.read) :=
  ⟨by unfold DB.wf; decide, conversation_unread_count exDb 2 (by unfold DB.wf; decide)⟩

/-- **C5 counterexample** — in `exDb` the thread's two messages share a
timestamp; `getUserConversations` reports a last message that is not the
maximum-(timestamp, id) message: another stored message of the same
thread has an equal timestamp and a strictly larger id. -/
theorem last_message_not_max_pair :
    ∃ c ∈ getUserConversations exDb 1, ∃ m ∈ exDb.messages,
      msgKey m = c.id ∧
      (c.lastMessage.createdAt < m.createdAt ∨
        (c.lastMessage.createdAt = m.createdAt ∧ c.lastMessage.id < m.id)) := by
  decide

/-- **C5 amended** — `getUserConversations` sorts conversations by
last-message timestamp descending only (no id tie-break), and each
conversation's reported last message is a stored message of its thread
whose timestamp is maximal in the thread (on timestamp ties the code
keeps the message the descending fetch delivers first, not the max-id
one). -/
theorem conversations_sorted_by_time (db : DB) (userId : Nat)
    (hwf : DB.wf db) :
    (getUserConversations db userId).Pairwise
      (fun c1 c2 => c2.lastMessage.createdAt ≤ c1.lastMessage.createdAt) ∧
    ∀ c ∈ getUserConversations db userId,
      c.lastMessage ∈ db.messages ∧ msgKey c.lastMessage = c.id ∧
      ∀ m ∈ db.messages, msgKey m = c.id →
        m.createdAt ≤ c.lastMessage.createdAt := by
  constructor
  · rw [getUserConversations]
    exact pairwise_sortByDesc _ _
  · intro c hc
    rw [getUserConversations, mem_sortByDesc] at hc
    obtain ⟨k, hk⟩ :=
      mem_snd_exists_alookup _ c (convInv_final db userId).keysNodup hc
    obtain ⟨hid, hkne, huser, hcnt, hmem, hkeym, hmax⟩ :=
      (convInv_final db userId).entry k c hk
    subst hid
    refine ⟨(fetchUserMessages_mem db userId _ hmem).1, hkeym, ?_⟩
    intro m hm hkm
    have hel := thread_member_eligible userId c.id m hkm hkne huser
    have hmf : m ∈ fetchUserMessages db userId := by
      rw [fetchUserMessages, mem_sortByDesc, List.mem_filter]
      refine ⟨hm, ?_⟩
      have hjoin := hwf m hm
      simp only [eligible, Bool.and_eq_true] at hel
      simp [hjoin, hel.1, hel.2]
    exact hmax m hmf hkm

/-- Witness for the amended C5: viewer 1's conversation list in the
example database. -/
theorem conversations_sorted_by_time_witness :
    DB.wf exDb ∧
    ((getUserConversations exDb 1).Pairwise
      (fun c1 c2 => c2.lastMessage.createdAt ≤ c1.lastMessage.createdAt) ∧
    ∀ c ∈ getUserConversations exDb 1,
      c.lastMessage ∈ exDb.messages ∧ msgKey c.lastMessage = c.id ∧
      ∀ m ∈ exDb.messages, msgKey m = c.id →
        m.createdAt ≤ c.lastMessage.createdAt) :=
  ⟨by unfold DB.wf; decide, conversations_sorted_by_time exDb 1 (by unfold DB.wf; decide)⟩

/-- On a well-formed store the `getConversationMessages` WHERE clause
selects exactly the spec's thread set. -/
theorem conversation_filter_eq_spec (db : DB) (p a b : Nat) (hab : a ≠ b)
    (hwf : DB.wf db) :
    (db.messages.filter fun m =>
      joinOk db m && m.propertyId == p &&
      ((m.senderId == a && m.receiverId == b) ||
        (m.senderId == b && m.receiverId == a)) &&
      !(m.senderId == m.receiverId)) = specThreadMessages db p a b := by
  unfold specThreadMessages
  apply List.filter_congr
  intro m hm
  have hjoin := hwf m hm
  apply Bool.eq_iff_iff.mpr
  simp only [Bool.and_eq_true, Bool.or_eq_true, beq_iff_eq, Bool.not_eq_true',
    beq_eq_false_iff_ne, decide_eq_true_eq, hjoin, true_and, ne_eq]
  constructor
  · rintro ⟨⟨hp, hor⟩, hne⟩
    rw [msgKey, hp]
    rcases hor with ⟨hs, hr⟩ | ⟨hs, hr⟩
    · rw [hs, hr]
    · rw [hs, hr, Nat.min_comm b a, Nat.max_comm b a]
  · intro hkey
    rw [msgKey, Prod.ext_iff, Prod.ext_iff] at hkey
    have hp := hkey.1
    have hpair := min_max_pair_eq _ _ _ _ hkey.2.1 hkey.2.2
    refine ⟨⟨hp, hpair⟩, ?_⟩
    rcases hpair with ⟨hs, hr⟩ | ⟨hs, hr⟩ <;> omega

/-- **C3 counterexample** — `exMsg1` and `exMsg2` belong to one thread,
share a timestamp, and `exMsg1.id < exMsg2.id`, yet the conversation
route returns `exMsg2` first: `ORDER BY sent_at DESC` has no id
tie-break, so reversing the descending page leaves equal-timestamp
messages in reverse insertion order, not ascending id order. -/
theorem thread_order_tie_broken :
    exMsg1.createdAt = exMsg2.createdAt ∧ exMsg1.id < exMsg2.id ∧
    msgKey exMsg1 = msgKey exMsg2 ∧
    conversationRoute exDb 1 (1, 1, 2) = [exMsg2, exMsg1] := by
  refine ⟨rfl, by decide, rfl, by decide⟩

/-- **C3 amended** — for a thread of at most 50 messages (the route
fetches only the newest page of 50), the conversation route returns
exactly the thread's messages — a permutation of the spec's thread set —
ordered ascending by timestamp; the spec's ascending id tie-break does
not hold (see the counterexample). -/
theorem thread_fetch_amended (db : DB) (p a b : Nat) (hab : a ≠ b)
    (hwf : DB.wf db)
    (hlen : (specThreadMessages db p a b).length ≤ 50) :
    (conversationRoute db a (p, a, b)).Perm (specThreadMessages db p a b) ∧
    (conversationRoute db a (p, a, b)).Pairwise
      (fun m1 m2 => m1.createdAt ≤ m2.createdAt) := by
  have hroute : conversationRoute db a (p, a, b) =
      (getConversationMessages db p a b).reverse := by
    simp [conversationRoute]
  have hmsgs : getConversationMessages db p a b =
      sortByDesc (fun m => m.createdAt) (specThreadMessages db p a b) := by
    rw [getConversationMessages]
    rw [conversation_filter_eq_spec db p a b hab hwf]
    simp only [Nat.sub_self, Nat.zero_mul, List.drop_zero]
    apply List.take_of_length_le
    rw [length_sortByDesc]
    exact hlen
  rw [hroute, hmsgs]
  constructor
  · exact (List.reverse_perm _).trans (sortByDesc_perm _ _)
  · rw [List.pairwise_reverse]
    exact pairwise_sortByDesc _ _

/-- Witness for the amended C3 at the example database. -/
theorem thread_fetch_amended_witness :
    ((1 : Nat) ≠ 2 ∧ DB.wf exDb ∧
      (specThreadMessages exDb 1 1 2).length ≤ 50) ∧
    (conversationRoute exDb 1 (1, 1, 2)).Perm (specThreadMessages exDb 1 1 2) ∧
    (conversationRoute exDb 1 (1, 1, 2)).Pairwise
      (fun m1 m2 => m1.createdAt ≤ m2.createdAt) :=
  ⟨⟨by decide, by unfold DB.wf; decide, by decide⟩,
    (thread_fetch_amended exDb 1 1 2 (by decide) (by unfold DB.wf; decide)
      (by decide)).1,
    (thread_fetch_amended exDb 1 1 2 (by decide) (by unfold DB.wf; decide)
      (by decide)).2⟩
